import Mathlib

/-!
Shallow embedding of the vista grid controller (`internal/ui/grid.go`) and
proofs of the specified properties.  Go `int` values are modelled as `Int`
(Go division truncates toward zero; every division below is applied to
non-negative operands, where truncating and Euclidean division agree, so
Lean's `/` on `Int` is faithful under the stated non-negativity hypotheses).
-/

namespace Vista

/-! ### Constants (`const` block of grid.go) -/

def minCellWidth : Int := 20

def minCellHeight : Int := 5

def labelHeight : Int := 1

/-! ### Input mapper (`parseKey`)

Bytes of the raw input chunk are modelled as `Nat` values
(113 = q, 3 = Ctrl-C, 13 = CR, 10 = LF, 104 = h, 106 = j, 107 = k,
108 = l, 115 = s, 100 = d, 111 = o, 63 = question mark, 27 = ESC,
91 = open bracket, 65..68 = A..D). -/

inductive KeyAction where
  | none
  | up
  | down
  | left
  | right
  | select
  | setBg
  | delete
  | openUrl
  | help
  | quit
deriving DecidableEq, Repr

/-- `parseKey` from grid.go: empty chunk is a no-op; a one-byte chunk goes
through the single-byte switch; a chunk of length at least three starting
with ESC `[` goes through the arrow-key switch; everything else is a no-op. -/
def parseKey (b : List Nat) : KeyAction :=
  if b.length = 0 then .none
  else if b.length = 1 then
    let c := b.headD 0
    if c = 113 ∨ c = 3 then .quit
    else if c = 13 ∨ c = 10 then .select
    else if c = 104 then .left
    else if c = 106 then .down
    else if c = 107 then .up
    else if c = 108 then .right
    else if c = 115 then .setBg
    else if c = 100 then .delete
    else if c = 111 then .openUrl
    else if c = 63 then .help
    else .none
  else if 3 ≤ b.length ∧ b.headD 0 = 27 ∧ (b.drop 1).headD 0 = 91 then
    let c := (b.drop 2).headD 0
    if c = 65 then .up
    else if c = 66 then .down
    else if c = 67 then .right
    else if c = 68 then .left
    else .none
  else .none

/-- The chunks `parseKey` recognizes, as a boolean predicate (used only to
state that everything outside this set maps to the no-op action). -/
def recognizedChunk (b : List Nat) : Bool :=
  match b with
  | [c] => c ∈ [113, 3, 13, 10, 104, 106, 107, 108, 115, 100, 111, 63]
  | 27 :: 91 :: c :: _ => c ∈ [65, 66, 67, 68]
  | _ => false

/-! ### Move actions (the `actionUp`/`Down`/`Left`/`Right` cases of `Grid.Run`) -/

inductive MoveAction where
  | up
  | down
  | left
  | right
deriving DecidableEq, Repr

/-- One move action applied to `selected`, exactly as the corresponding
`case` of `Grid.Run` guards and mutates `g.selected` (`cols` is
`g.cols`, `count` is `len(g.wallpapers)`). -/
def moveSelected (cols count selected : Int) : MoveAction → Int
  | .up => if cols ≤ selected then selected - cols else selected
  | .down => if selected + cols < count then selected + cols else selected
  | .left => if 0 < selected then selected - 1 else selected
  | .right => if selected < count - 1 then selected + 1 else selected

/-- A whole input sequence of move actions, applied left to right. -/
def runMoves (cols count selected : Int) (as : List MoveAction) : Int :=
  as.foldl (fun s a => moveSelected cols count s a) selected

/-! ### Layout engine (`Grid.layout`) -/

/-- `g.cols` after `layout()` for terminal width `w`. -/
def layoutCols (w : Int) : Int :=
  let c := w / minCellWidth
  if c < 1 then 1 else c

/-- `g.cellW` after `layout()` for terminal width `w`. -/
def layoutCellW (w : Int) : Int :=
  w / layoutCols w

/-- `g.cellH` after `layout()` for terminal width `w`. -/
def layoutCellH (w : Int) : Int :=
  let h := layoutCellW w * 9 / 32
  if h < minCellHeight then minCellHeight else h

/-- `Grid.visibleRows` for terminal height `termH` and cell height `cellH`. -/
def visibleRowsOf (termH cellH : Int) : Int :=
  let vr := termH / (cellH + labelHeight)
  if vr < 1 then 1 else vr

/-! ### Catalog items (`api.Wallpaper`, the fields the grid reads) -/

structure Wallpaper where
  id : String
  url : String
  path : String
  resolution : String
  thumbSmall : String
deriving DecidableEq, Repr

/-! ### Viewport manager (`Grid.ensureVisible`) -/

/-- The new `scrollRow` computed by `ensureVisible` (`vr` is the result of
`visibleRows()`, constant across calls since the terminal size is fixed). -/
def ensureVisible (cols vr selected scrollRow : Int) : Int :=
  let selectedRow := selected / cols
  if selectedRow < scrollRow then selectedRow
  else if scrollRow + vr ≤ selectedRow then selectedRow - vr + 1
  else scrollRow

/-! ### Deletion (`actionDelete` case of `Grid.Run`) -/

/-- Unix `filepath.IsAbs`: a path is absolute when it starts with `/`
(the `actionDelete` case only deletes items whose path is absolute).
Stated over the character sequence of the path. -/
def pathIsAbs (p : String) : Bool :=
  "/".data.isPrefixOf p.data

/-- The cache re-keying loop of `actionDelete`: every entry of `g.rendered`
with key below the deleted index is kept, every entry with key above it is
shifted down by one, the entry at the deleted index is dropped.  The Go map
is modelled by its entry list; the loop body is order-independent because
the produced keys are injective. -/
def rekeyRendered (sel : Nat) (entries : List (Nat × String)) : List (Nat × String) :=
  entries.filterMap fun kv =>
    if kv.1 < sel then some kv
    else if sel < kv.1 then some (kv.1 - 1, kv.2)
    else none

/-- `append(l[:k], l[k+1:]...)` — removal of the element at index `k`,
used on both `g.wallpapers` and `g.thumbPaths` in `actionDelete`. -/
def deleteAt (l : List α) (k : Nat) : List α :=
  l.take k ++ l.drop (k + 1)

/-! ### Render cache (`Grid.imageStr`, `placeholderLines`) -/

/-- The glyph used by `placeholderLines`. -/
def placeholderChar : Char := '░'

/-- `placeholderLines(w, h)`: `h` iterations of the Go loop, each appending
a row of `w` placeholder glyphs plus a newline to the string builder.
Cell dimensions are non-negative, so they are taken as `Nat`. -/
def placeholderLines (w h : Nat) : String :=
  (List.range h).foldl
    (fun sb _ => sb ++ String.mk (List.replicate w placeholderChar) ++ "\n") ""

/-- Lines joined with a trailing newline each, for stating the shape of the
placeholder block. -/
def joinedLines (lines : List String) : String :=
  lines.foldl (fun acc l => acc ++ l ++ "\n") ""

/-- Result of one `imageStr` call: the returned string, the updated
`g.rendered` cache, and whether `g.renderer.Render` was invoked. -/
structure ImageResult where
  text : String
  rendered : Nat → Option String
  renderCalled : Bool

/-- `Grid.imageStr`: empty thumb path yields the placeholder; a cache hit is
returned as-is; otherwise the renderer runs (`none` models a Go error), a
failure degrades to the placeholder, and the result is stored under `idx`.
The external renderer is an oracle argument; the Go map `g.rendered` is
modelled as a partial function. -/
def imageStr (render : String → Nat → Nat → Option String)
    (cellW cellH : Nat) (rendered : Nat → Option String)
    (idx : Nat) (thumbPath : String) : ImageResult :=
  if thumbPath = "" then
    ⟨placeholderLines cellW cellH, rendered, false⟩
  else
    match rendered idx with
    | some cached => ⟨cached, rendered, false⟩
    | none =>
      match render thumbPath cellW cellH with
      | some s => ⟨s, fun j => if j = idx then some s else rendered j, true⟩
      | none =>
        let p := placeholderLines cellW cellH
        ⟨p, fun j => if j = idx then some p else rendered j, true⟩

/-! ### Redraw engine (`Grid.draw`, `Grid.writeCellTo`)

The terminal output of one `draw` call is modelled as the list of drawing
operations the escape-sequence builder accumulates. -/

inductive DrawOp where
  | clear
  | helpOverlay
  | cellImage (idx : Int)
  | cellBorder (idx : Int)
  | cellLabel (idx : Int)
  | park
deriving DecidableEq, Repr

/-- The grid fields `draw` reads: item count, layout, selection, scroll and
the `drawMemo` snapshot of the previous draw (`prevSelected` is `-1` before
the first draw). -/
structure DrawState where
  count : Nat
  cols : Int
  selected : Int
  scrollRow : Int
  prevSelected : Int
  prevScrollRow : Int
  prevCount : Nat
  showHelp : Bool

/-- `Grid.writeCellTo`: nothing for an out-of-range index or a cell outside
the viewport; otherwise the image block, the border overlay when the cell is
selected, and the label. -/
def writeCellOps (s : DrawState) (vr : Int) (idx : Int) : List DrawOp :=
  if idx < 0 ∨ (s.count : Int) ≤ idx then []
  else
    let row := idx / s.cols
    if row < s.scrollRow ∨ s.scrollRow + vr ≤ row then []
    else
      [DrawOp.cellImage idx]
        ++ (if idx = s.selected then [DrawOp.cellBorder idx] else [])
        ++ [DrawOp.cellLabel idx]

/-- The `needFull` flag of `Grid.draw`: first draw, scroll change, or item
count change. -/
def needFull (s : DrawState) : Bool :=
  s.prevSelected < 0 || s.scrollRow != s.prevScrollRow || s.count != s.prevCount

/-- A cell both in range and inside the viewport — exactly the cells
`writeCellTo` paints. -/
def cellVisible (s : DrawState) (vr : Int) (idx : Int) : Prop :=
  0 ≤ idx ∧ idx < (s.count : Int)
    ∧ s.scrollRow ≤ idx / s.cols ∧ idx / s.cols < s.scrollRow + vr

instance (s : DrawState) (vr idx : Int) : Decidable (cellVisible s vr idx) := by
  unfold cellVisible; infer_instance

/-- The builder content of one `Grid.draw` call: help overlay on a cleared
screen when help is shown; otherwise a full repaint (clear then every cell,
`writeCellTo` filtering to the viewport) when `needFull`, the two affected
cells when only the selection changed, nothing otherwise. -/
def drawOps (s : DrawState) (vr : Int) : List DrawOp :=
  if s.showHelp then [DrawOp.clear, DrawOp.helpOverlay]
  else if needFull s then
    DrawOp.clear :: (List.range s.count).flatMap fun i => writeCellOps s vr (i : Int)
  else if s.selected != s.prevSelected then
    writeCellOps s vr s.prevSelected ++ writeCellOps s vr s.selected
  else []

/-- What `draw` actually prints: nothing when the builder is empty,
otherwise the builder content followed by the cursor-parking sequence. -/
def drawOutput (s : DrawState) (vr : Int) : List DrawOp :=
  let ops := drawOps s vr
  if ops.isEmpty then [] else ops ++ [DrawOp.park]

/-! ### Pagination scheduler (`Grid.maybeLoadMore`, `Grid.fetchNextPage`) -/

/-- The message sent on `g.loadCh` by `fetchNextPage`. -/
structure LoadResult where
  wallpapers : List Wallpaper
  thumbPaths : List String
  nextPage : Int
deriving DecidableEq, Repr

/-- `Grid.fetchNextPage` for a given page: the catalog client is an oracle
(`none` models a `SearchPage` error), thumbnail download an oracle string
function.  On error the message carries no items and `page + 1`; on success
the items, their downloaded thumb paths, and `page + 1`. -/
def fetchNextPage (searchPage : Int → Option (List Wallpaper))
    (download : String → String) (page : Int) : LoadResult :=
  match searchPage page with
  | none => { wallpapers := [], thumbPaths := [], nextPage := page + 1 }
  | some ws =>
    { wallpapers := ws
      thumbPaths := ws.map fun wp => download wp.thumbSmall
      nextPage := page + 1 }

/-- The grid fields the scheduler touches, plus `inFlight`, a ghost counter
of running background fetch tasks (incremented exactly where `Grid.Run`
executes `go g.fetchNextPage()`, decremented when the loop consumes the
result from `loadCh`). -/
structure SchedState where
  loading : Bool
  nextPage : Int
  lastPage : Int
  count : Int
  selected : Int
  cols : Int
  vr : Int
  inFlight : Nat
deriving DecidableEq, Repr

/-- `Grid.maybeLoadMore`: early return while loading or when no pages
remain; otherwise start a fetch when the loaded rows do not fill the screen
or the selection is within one screenful of the end. -/
def maybeLoadMore (s : SchedState) : SchedState :=
  if s.loading || s.lastPage < s.nextPage then s
  else
    let loadedRows := (s.count + s.cols - 1) / s.cols
    let selectedRow := s.selected / s.cols
    if loadedRows < s.vr || loadedRows - s.vr ≤ selectedRow then
      { s with loading := true, inFlight := s.inFlight + 1 }
    else s

/-- The `case result := <-g.loadCh` branch of the event loop: append the
items, take the carried `nextPage`, clear the in-flight flag. -/
def applyLoadResult (s : SchedState) (r : LoadResult) : SchedState :=
  { s with
    loading := false
    count := s.count + r.wallpapers.length
    nextPage := r.nextPage
    inFlight := s.inFlight - 1 }

/-- Events the scheduler state reacts to across the loop's lifetime. -/
inductive SchedEvent where
  | trigger
  | complete (r : LoadResult)

def schedStep (s : SchedState) : SchedEvent → SchedState
  | .trigger => maybeLoadMore s
  | .complete r => applyLoadResult s r

def runSched (s : SchedState) (es : List SchedEvent) : SchedState :=
  es.foldl schedStep s

/-- Coupling invariant: the ghost task counter agrees with the loading
flag. -/
def schedInv (s : SchedState) : Prop :=
  s.inFlight = if s.loading then 1 else 0

instance (s : SchedState) : Decidable (schedInv s) := by
  unfold schedInv; infer_instance

/-! ### Background read performed by `Grid.setWallpaperBg`

`go g.setWallpaperBg(g.selected)` evaluates `g.selected` in the foreground,
but the goroutine body then executes `wp := g.wallpapers[idx]` against the
live controller state.  `none` models the out-of-range panic. -/

def setWallpaperBgRead (wallpapers : List Wallpaper) (idx : Nat) : Option Wallpaper :=
  wallpapers[idx]?

/-- Two concrete catalog items with absolute (deletable) local paths. -/
def wpA : Wallpaper :=
  { id := "w1", url := "u1", path := "/wall/a.jpg", resolution := "1920x1080", thumbSmall := "ta" }

def wpB : Wallpaper :=
  { id := "w2", url := "u2", path := "/wall/b.jpg", resolution := "2560x1440", thumbSmall := "tb" }

/-! ## Theorems -/

/-- One move action keeps the selection inside `[0, count)` when the grid
has at least one column. -/
theorem moveSelected_bounds (cols count s : Int) (hcols : 1 ≤ cols)
    (h0 : 0 ≤ s) (h1 : s < count) (a : MoveAction) :
    0 ≤ moveSelected cols count s a ∧ moveSelected cols count s a < count := by
  cases a <;> simp only [moveSelected] <;> split_ifs <;> omega

/-- C1: for every non-empty wallpaper list, after any sequence of move
actions (up, down, left, right) the selected index remains in
`[0, len(items))`, and a move that would cross a boundary leaves the
selection unchanged — no wraparound, no underflow or overflow. -/
theorem selected_in_bounds_after_moves (cols count selected : Int)
    (hcols : 1 ≤ cols) (hcount : 1 ≤ count)
    (h0 : 0 ≤ selected) (h1 : selected < count) (as : List MoveAction) :
    (0 ≤ runMoves cols count selected as ∧ runMoves cols count selected as < count)
    ∧ (∀ s : Int,
        (s < cols → moveSelected cols count s .up = s)
        ∧ (count ≤ s + cols → moveSelected cols count s .down = s)
        ∧ (s ≤ 0 → moveSelected cols count s .left = s)
        ∧ (count - 1 ≤ s → moveSelected cols count s .right = s)) := by
  constructor
  · induction as generalizing selected with
    | nil => exact ⟨h0, h1⟩
    | cons a as ih =>
        have h := moveSelected_bounds cols count selected hcols h0 h1 a
        simpa [runMoves, List.foldl_cons] using ih _ h.1 h.2
  · intro s
    refine ⟨?_, ?_, ?_, ?_⟩ <;>
      (intro h; simp only [moveSelected]; split_ifs <;> omega)

/-- Closed instance of `selected_in_bounds_after_moves` on a 2-column,
5-item grid. -/
theorem selected_in_bounds_after_moves_witness :
    0 ≤ runMoves 2 5 0 [MoveAction.down, .right, .up, .left, .left]
    ∧ runMoves 2 5 0 [MoveAction.down, .right, .up, .left, .left] < 5 :=
  (selected_in_bounds_after_moves 2 5 0 (by decide) (by decide) (by decide)
    (by decide) [MoveAction.down, .right, .up, .left, .left]).1

/-- C5: `ensureVisible` is idempotent — for any selected index and scroll
row, with at least one column and one visible row, applying it twice yields
the same `scrollRow` as applying it once. -/
theorem ensureVisible_idempotent (cols vr selected scrollRow : Int)
    (hcols : 1 ≤ cols) (hvr : 1 ≤ vr) :
    ensureVisible cols vr selected (ensureVisible cols vr selected scrollRow)
      = ensureVisible cols vr selected scrollRow := by
  simp only [ensureVisible]
  split_ifs <;> omega

/-- Closed instance of `ensureVisible_idempotent`. -/
theorem ensureVisible_idempotent_witness :
    ensureVisible 2 3 11 (ensureVisible 2 3 11 0) = ensureVisible 2 3 11 0 :=
  ensureVisible_idempotent 2 3 11 0 (by decide) (by decide)

/-- C6: the layout computation satisfies
`columns = max(1, floor(W / Wmin))`, `cellWidth = floor(W / columns)` and
`cellHeight = max(minCellHeight, floor(cellWidth * 9 / 32))`; in particular
at terminal width 100 it yields 5 columns, cell width 20 and cell height
`max(minCellHeight, 5) = 5`. -/
theorem layout_matches_formula (w : Int) (hw : 0 ≤ w) :
    (layoutCols w = max 1 (w / minCellWidth)
      ∧ layoutCellW w = w / max 1 (w / minCellWidth)
      ∧ layoutCellH w = max minCellHeight (layoutCellW w * 9 / 32))
    ∧ (w = 100 →
        layoutCols w = 5 ∧ layoutCellW w = 20
          ∧ layoutCellH w = max minCellHeight 5 ∧ layoutCellH w = 5) := by
  have hcols : layoutCols w = max 1 (w / minCellWidth) := by
    simp only [layoutCols]
    split_ifs <;> omega
  refine ⟨⟨hcols, by rw [layoutCellW, hcols], ?_⟩, ?_⟩
  · simp only [layoutCellH]
    split_ifs <;> omega
  · rintro rfl
    refine ⟨by decide, by decide, by decide, by decide⟩

/-- Closed instance of `layout_matches_formula` at terminal width 100. -/
theorem layout_matches_formula_witness :
    layoutCols 100 = 5 ∧ layoutCellW 100 = 20 ∧ layoutCellH 100 = 5 := by
  have h := layout_matches_formula 100 (by decide)
  exact ⟨(h.2 rfl).1, (h.2 rfl).2.1, (h.2 rfl).2.2.2⟩

/-- C9 evidence: the `actionSetBg` background task reads the live
`g.wallpapers` rather than a by-value snapshot.  With items `[wpA, wpB]`
and `g.selected = 1`, the task spawned by `go g.setWallpaperBg(1)` would
read `wpB`; if the foreground loop processes a delete of the (absolute,
hence deletable) selected item before the goroutine body runs, the same
read indexes past the end of the shrunk list — an out-of-range access that
a purely by-value hand-off could not produce. -/
theorem setWallpaperBg_reads_live_state :
    pathIsAbs wpB.path = true
    ∧ setWallpaperBgRead [wpA, wpB] 1 = some wpB
    ∧ deleteAt [wpA, wpB] 1 = [wpA]
    ∧ setWallpaperBgRead (deleteAt [wpA, wpB] 1) 1 = none := by
  refine ⟨by decide, rfl, rfl, rfl⟩

/-- C3: deleting the item at index `k` re-keys the render cache — entries
below `k` keep their key, entries above `k` move down by one, every
surviving entry stems from an index other than `k` — and removes the
element at `k` from the wallpapers and thumbnail-path sequences in the
same step. -/
theorem delete_rekeys_cache_and_sequences (entries : List (Nat × String)) (k : Nat)
    (ws : List Wallpaper) (ts : List String) (hk : k < ws.length) :
    (∀ i v, (i, v) ∈ entries → i < k → (i, v) ∈ rekeyRendered k entries)
    ∧ (∀ i v, (i, v) ∈ entries → k < i → (i - 1, v) ∈ rekeyRendered k entries)
    ∧ (∀ j v, (j, v) ∈ rekeyRendered k entries →
        ∃ i, (i, v) ∈ entries ∧ i ≠ k ∧ ((i < k ∧ j = i) ∨ (k < i ∧ j = i - 1)))
    ∧ (deleteAt ws k).length = ws.length - 1
    ∧ (∀ i : Nat, (deleteAt ws k)[i]? = if i < k then ws[i]? else ws[i + 1]?)
    ∧ (∀ i : Nat, (deleteAt ts k)[i]? = if i < k then ts[i]? else ts[i + 1]?) := by
  have hdel : ∀ {α : Type} (l : List α), deleteAt l k = l.eraseIdx k := by
    intro α l
    exact (List.eraseIdx_eq_take_drop_succ l k).symm
  refine ⟨?_, ?_, ?_, ?_, ?_, ?_⟩
  · intro i v hmem hik
    exact List.mem_filterMap.mpr ⟨(i, v), hmem, by simp [hik]⟩
  · intro i v hmem hki
    refine List.mem_filterMap.mpr ⟨(i, v), hmem, ?_⟩
    rw [if_neg (by omega), if_pos hki]
  · intro j v hmem
    obtain ⟨⟨i, v'⟩, hin, hf⟩ := List.mem_filterMap.mp hmem
    by_cases h1 : i < k
    · rw [if_pos h1] at hf
      obtain ⟨rfl, rfl⟩ : i = j ∧ v' = v := by
        simpa using hf
      exact ⟨i, hin, by omega, Or.inl ⟨h1, rfl⟩⟩
    · by_cases h2 : k < i
      · rw [if_neg h1, if_pos h2] at hf
        obtain ⟨hj, rfl⟩ : i - 1 = j ∧ v' = v := by
          simpa using hf
        exact ⟨i, hin, by omega, Or.inr ⟨h2, hj.symm⟩⟩
      · rw [if_neg h1, if_neg h2] at hf
        exact absurd hf (by simp)
  · rw [hdel, List.length_eraseIdx, if_pos hk]
  · intro i
    rw [hdel, List.getElem?_eraseIdx]
  · intro i
    rw [hdel, List.getElem?_eraseIdx]

/-- Closed instance of `delete_rekeys_cache_and_sequences`: deleting index 1
keeps the entry at 0, shifts the entry at 2 down to 1, and shortens the item
list. -/
theorem delete_rekeys_cache_and_sequences_witness :
    (0, "x") ∈ rekeyRendered 1 [(0, "x"), (2, "y")]
    ∧ (1, "y") ∈ rekeyRendered 1 [(0, "x"), (2, "y")]
    ∧ (deleteAt [wpA, wpB] 1).length = 1 := by
  have h := delete_rekeys_cache_and_sequences [(0, "x"), (2, "y")] 1
    [wpA, wpB] ["a", "b"] (by decide)
  exact ⟨h.1 0 "x" (by decide) (by decide),
    h.2.1 2 "y" (by decide) (by decide), h.2.2.2.1⟩

/-- The scheduler step keeps the ghost task counter coupled to the loading
flag. -/
theorem schedStep_preserves_inv (s : SchedState) (e : SchedEvent)
    (h : schedInv s) : schedInv (schedStep s e) := by
  cases e with
  | trigger =>
      simp only [schedStep, maybeLoadMore]
      split_ifs with h1 h2
      · exact h
      · have hl : s.loading = false := by
          cases hb : s.loading
          · rfl
          · simp [hb] at h1
        simp only [schedInv] at h ⊢
        rw [hl] at h
        simp [h]
      · exact h
  | complete r =>
      simp only [schedStep, applyLoadResult, schedInv] at h ⊢
      cases hb : s.loading <;> rw [hb] at h <;> simp at h ⊢ <;> omega

/-- C4: the pagination scheduler never has two fetches in flight and never
stalls — `maybeLoadMore` is a no-op while a fetch is loading or when no
pages remain; a failed page fetch produces a message with no items whose
`nextPage` is the failed page plus one; consuming any fetch result sets
`nextPage` to the fetched page plus one, so pages strictly advance; and
along any event sequence from a well-coupled state the number of in-flight
fetch tasks never exceeds one. -/
theorem pagination_scheduler_properties :
    (∀ s : SchedState, s.loading = true ∨ s.lastPage < s.nextPage → maybeLoadMore s = s)
    ∧ (∀ (sp : Int → Option (List Wallpaper)) (dl : String → String) (page : Int),
        sp page = none →
          fetchNextPage sp dl page = { wallpapers := [], thumbPaths := [], nextPage := page + 1 })
    ∧ (∀ (sp : Int → Option (List Wallpaper)) (dl : String → String) (page : Int),
        (fetchNextPage sp dl page).nextPage = page + 1)
    ∧ (∀ (s : SchedState) (sp : Int → Option (List Wallpaper)) (dl : String → String)
        (page : Int),
        (applyLoadResult s (fetchNextPage sp dl page)).nextPage = page + 1)
    ∧ (∀ (s : SchedState) (es : List SchedEvent), schedInv s →
        schedInv (runSched s es) ∧ (runSched s es).inFlight ≤ 1) := by
  have hrun : ∀ (es : List SchedEvent) (s : SchedState), schedInv s → schedInv (runSched s es) := by
    intro es
    induction es with
    | nil => intro s h; exact h
    | cons e es ih =>
        intro s h
        exact ih _ (schedStep_preserves_inv s e h)
  refine ⟨?_, ?_, ?_, ?_, ?_⟩
  · intro s h
    simp only [maybeLoadMore]
    rw [if_pos]
    rcases h with h | h
    · simp [h]
    · simp [h]
  · intro sp dl page h
    simp [fetchNextPage, h]
  · intro sp dl page
    cases h : sp page <;> simp [fetchNextPage, h]
  · intro s sp dl page
    simp only [applyLoadResult]
    cases h : sp page <;> simp [fetchNextPage, h]
  · intro s es h
    have hinv := hrun es s h
    refine ⟨hinv, ?_⟩
    simp only [schedInv] at hinv
    rw [hinv]
    cases (runSched s es).loading <;> simp

/-- Closed instance of `pagination_scheduler_properties`: a loading state is
left untouched, and a trigger–complete trace preserves the single-fetch
bound. -/
theorem pagination_scheduler_properties_witness :
    maybeLoadMore ⟨true, 2, 9, 24, 0, 4, 3, 1⟩ = ⟨true, 2, 9, 24, 0, 4, 3, 1⟩
    ∧ (runSched ⟨false, 2, 9, 24, 0, 4, 3, 0⟩
        [SchedEvent.trigger, SchedEvent.complete ⟨[], [], 3⟩]).inFlight ≤ 1 :=
  ⟨pagination_scheduler_properties.1 _ (Or.inl rfl),
    (pagination_scheduler_properties.2.2.2.2 _ _ (by decide)).2⟩

/-- The placeholder block is exactly `h` newline-terminated lines of `w`
placeholder glyphs. -/
theorem placeholderLines_shape (w h : Nat) :
    placeholderLines w h
      = joinedLines (List.replicate h (String.mk (List.replicate w placeholderChar)))
    ∧ ∀ l ∈ List.replicate h (String.mk (List.replicate w placeholderChar)),
        l.length = w := by
  constructor
  · induction h with
    | zero => rfl
    | succ n ih =>
        simp only [placeholderLines, joinedLines] at ih ⊢
        rw [List.range_succ, List.foldl_append, List.replicate_succ',
          List.foldl_append, ih]
        rfl
  · intro l hl
    rw [List.eq_of_mem_replicate hl]
    simp [String.length]

/-- C8: the render/cache path never propagates an error — an absent
thumbnail path or a renderer failure yields a fixed placeholder block of
exactly `cellH` lines of width `cellW`, the result is stored in the cache,
and a later call for the same index returns the stored result without
invoking the renderer again. -/
theorem imageStr_error_policy (render : String → Nat → Nat → Option String)
    (cache : Nat → Option String) (idx : Nat) (w h : Nat) (path : String) :
    (placeholderLines w h
        = joinedLines (List.replicate h (String.mk (List.replicate w placeholderChar)))
      ∧ ∀ l ∈ List.replicate h (String.mk (List.replicate w placeholderChar)),
          l.length = w)
    ∧ (imageStr render w h cache idx "").text = placeholderLines w h
    ∧ (path ≠ "" → cache idx = none → render path w h = none →
        (imageStr render w h cache idx path).text = placeholderLines w h
        ∧ (imageStr render w h cache idx path).rendered idx
            = some (placeholderLines w h))
    ∧ (∀ path', path ≠ "" →
        (imageStr render w h (imageStr render w h cache idx path).rendered idx
            path').renderCalled = false
        ∧ (path' ≠ "" →
            (imageStr render w h (imageStr render w h cache idx path).rendered idx
                path').text
              = (imageStr render w h cache idx path).text)) := by
  refine ⟨placeholderLines_shape w h, by simp [imageStr], ?_, ?_⟩
  · intro hpath hc hr
    simp [imageStr, hpath, hc, hr]
  · intro path' hpath
    rcases hc : cache idx with _ | c
    · rcases hr : render path w h with _ | s
      · by_cases hp' : path' = ""
        · subst hp'
          simp [imageStr, hpath, hc, hr]
        · simp [imageStr, hpath, hc, hr, hp']
      · by_cases hp' : path' = ""
        · subst hp'
          simp [imageStr, hpath, hc, hr]
        · simp [imageStr, hpath, hc, hr, hp']
    · by_cases hp' : path' = ""
      · subst hp'
        simp [imageStr, hpath, hc]
      · simp [imageStr, hpath, hc, hp']

/-- Closed instance of `imageStr_error_policy`: with an always-failing
renderer and an empty cache, the returned text is the placeholder block and
the retry does not call the renderer. -/
theorem imageStr_error_policy_witness :
    (imageStr (fun _ _ _ => none) 3 2 (fun _ => none) 0 "p").text
      = placeholderLines 3 2
    ∧ (imageStr (fun _ _ _ => none) 3 2
        (imageStr (fun _ _ _ => none) 3 2 (fun _ => none) 0 "p").rendered 0
        "p").renderCalled = false := by
  have h := imageStr_error_policy (fun _ _ _ => none) (fun _ => none) 0 3 2 "p"
  exact ⟨(h.2.2.1 (by decide) rfl rfl).1, (h.2.2.2 "p" (by decide)).1⟩

/-- C7: `parseKey` is a total stateless mapping onto a closed set of
actions — q and Ctrl-C quit, Enter confirms, h/j/k/l and the three-byte
`ESC [ A/B/C/D` sequences move, the extended bindings s/d/o/? act, and
every chunk outside this set (the empty chunk included) is the no-op
action. -/
theorem parseKey_closed_mapping :
    parseKey [] = .none
    ∧ (parseKey [113] = .quit ∧ parseKey [3] = .quit)
    ∧ (parseKey [13] = .select ∧ parseKey [10] = .select)
    ∧ (parseKey [104] = .left ∧ parseKey [106] = .down
        ∧ parseKey [107] = .up ∧ parseKey [108] = .right)
    ∧ (parseKey [115] = .setBg ∧ parseKey [100] = .delete
        ∧ parseKey [111] = .openUrl ∧ parseKey [63] = .help)
    ∧ (∀ rest : List Nat,
        parseKey (27 :: 91 :: 65 :: rest) = .up
        ∧ parseKey (27 :: 91 :: 66 :: rest) = .down
        ∧ parseKey (27 :: 91 :: 67 :: rest) = .right
        ∧ parseKey (27 :: 91 :: 68 :: rest) = .left)
    ∧ (∀ b : List Nat, recognizedChunk b = false → parseKey b = .none) := by
  refine ⟨rfl, ⟨rfl, rfl⟩, ⟨rfl, rfl⟩, ⟨rfl, rfl, rfl, rfl⟩, ⟨rfl, rfl, rfl, rfl⟩,
    ?_, ?_⟩
  · intro rest
    refine ⟨?_, ?_, ?_, ?_⟩ <;> simp [parseKey]
  · intro b hb
    match b with
    | [] => rfl
    | [c] =>
        simp only [recognizedChunk] at hb
        simp at hb
        obtain ⟨h1, h2, h3, h4, h5, h6, h7, h8, h9, h10, h11, h12⟩ := hb
        simp [parseKey, h1, h2, h3, h4, h5, h6, h7, h8, h9, h10, h11, h12]
    | [a, b'] =>
        simp [parseKey]
    | a :: b' :: c :: rest =>
        by_cases ha : a = 27 ∧ b' = 91
        · obtain ⟨rfl, rfl⟩ := ha
          simp only [recognizedChunk] at hb
          simp at hb
          obtain ⟨h1, h2, h3, h4⟩ := hb
          simp [parseKey, h1, h2, h3, h4]
        · rw [Decidable.not_and_iff_or_not] at ha
          rcases ha with ha | ha <;> simp [parseKey, ha]

/-- Closed instance of `parseKey_closed_mapping`: an unbound byte maps to
the no-op action. -/
theorem parseKey_closed_mapping_witness : parseKey [42] = .none :=
  parseKey_closed_mapping.2.2.2.2.2.2 [42] (by decide)

/-- C10: each raw input chunk yields at most one action — a chunk of two or
more bytes that is not an `ESC [` escape sequence maps to the no-op action
(batched keystrokes are discarded, not replayed), and in an escape-sequence
chunk only the third byte determines the action (the tail is ignored). -/
theorem parseKey_single_action_per_chunk :
    (∀ b : List Nat, 2 ≤ b.length →
      ¬(3 ≤ b.length ∧ b.headD 0 = 27 ∧ (b.drop 1).headD 0 = 91) →
      parseKey b = .none)
    ∧ (∀ (c : Nat) (rest rest' : List Nat),
        parseKey (27 :: 91 :: c :: rest) = parseKey (27 :: 91 :: c :: rest')) := by
  constructor
  · intro b hlen hesc
    match b with
    | [a] => simp at hlen
    | [a, b'] => simp [parseKey]
    | a :: b' :: c :: rest =>
        simp only [List.headD_cons, List.drop_succ_cons, List.drop_zero] at hesc
        have hlen3 : 3 ≤ (a :: b' :: c :: rest).length := by
          simp [List.length_cons]
        have : ¬(a = 27 ∧ b' = 91) := fun ⟨h1, h2⟩ => hesc ⟨hlen3, h1, by simp [h2]⟩
        rw [Decidable.not_and_iff_or_not] at this
        rcases this with ha | ha <;> simp [parseKey, ha]
  · intro c rest rest'
    by_cases hc : c = 65 ∨ c = 66 ∨ c = 67 ∨ c = 68
    · rcases hc with rfl | rfl | rfl | rfl <;> simp [parseKey]
    · push_neg at hc
      obtain ⟨h1, h2, h3, h4⟩ := hc
      simp [parseKey, h1, h2, h3, h4]

/-- Closed instance of `parseKey_single_action_per_chunk`: two batched `j`
keystrokes in one chunk produce no action, and the bytes after an arrow
escape sequence are ignored. -/
theorem parseKey_single_action_per_chunk_witness :
    parseKey [106, 106] = .none
    ∧ parseKey [27, 91, 65, 106] = parseKey [27, 91, 65] :=
  ⟨parseKey_single_action_per_chunk.1 [106, 106] (by decide) (by decide),
    parseKey_single_action_per_chunk.2 65 [106] []⟩

/-- `writeCellTo` paints exactly the visible cells. -/
theorem writeCellOps_eq (s : DrawState) (vr idx : Int) :
    writeCellOps s vr idx =
      if cellVisible s vr idx then
        [DrawOp.cellImage idx]
          ++ (if idx = s.selected then [DrawOp.cellBorder idx] else [])
          ++ [DrawOp.cellLabel idx]
      else [] := by
  by_cases hv : cellVisible s vr idx
  · obtain ⟨h0, h1, h2, h3⟩ := hv
    rw [if_pos ⟨h0, h1, h2, h3⟩]
    simp only [writeCellOps]
    rw [if_neg (by push_neg; exact ⟨h0, h1⟩), if_neg (by push_neg; exact ⟨h2, h3⟩)]
  · rw [if_neg hv]
    simp only [writeCellOps]
    simp only [cellVisible] at hv
    push_neg at hv
    split_ifs with g1 g2 g3 <;>
      first
        | rfl
        | (exfalso
           push_neg at g1 g2
           exact absurd (hv g1.1 g1.2 g2.1) (not_le.mpr g2.2))

/-- An image op appears in a cell's output exactly for that visible cell. -/
theorem cellImage_mem_writeCellOps (s : DrawState) (vr idx j : Int) :
    DrawOp.cellImage idx ∈ writeCellOps s vr j ↔ cellVisible s vr j ∧ idx = j := by
  rw [writeCellOps_eq]
  by_cases hv : cellVisible s vr j
  · rw [if_pos hv]
    rcases Decidable.em (j = s.selected) with hsel | hsel
    · rw [if_pos hsel]
      simp [hv]
    · rw [if_neg hsel]
      simp [hv]
  · rw [if_neg hv]
    simp [hv]

/-- A border op appears only for the visible selected cell. -/
theorem cellBorder_mem_writeCellOps (s : DrawState) (vr idx j : Int) :
    DrawOp.cellBorder idx ∈ writeCellOps s vr j
      ↔ cellVisible s vr j ∧ idx = j ∧ j = s.selected := by
  rw [writeCellOps_eq]
  by_cases hv : cellVisible s vr j
  · rw [if_pos hv]
    rcases Decidable.em (j = s.selected) with hsel | hsel
    · rw [if_pos hsel]
      subst hsel
      simp [hv]
    · rw [if_neg hsel]
      simp [hv, hsel]
  · rw [if_neg hv]
    simp [hv]

/-- A cell's output never clears the screen. -/
theorem clear_not_mem_writeCellOps (s : DrawState) (vr j : Int) :
    DrawOp.clear ∉ writeCellOps s vr j := by
  rw [writeCellOps_eq]
  split_ifs <;> simp

/-- C2: redraw classification is a pure function of the previous snapshot
versus the current state — when scroll or item count changed (or on the
first draw) the output is a screen clear followed by exactly the visible
cells; when only the selection changed the output repaints exactly the
previously-selected and newly-selected cells with no clear, the border
going only to the selected cell; when nothing changed no output is
emitted. -/
theorem draw_classification (s : DrawState) (vr : Int) (hh : s.showHelp = false) :
    (needFull s = true ↔
      (s.prevSelected < 0 ∨ s.scrollRow ≠ s.prevScrollRow ∨ s.count ≠ s.prevCount))
    ∧ (needFull s = true →
        (∃ rest, drawOps s vr = DrawOp.clear :: rest)
        ∧ ∀ idx : Int, (DrawOp.cellImage idx ∈ drawOps s vr ↔ cellVisible s vr idx))
    ∧ (needFull s = false → s.selected = s.prevSelected → drawOutput s vr = [])
    ∧ (needFull s = false → s.selected ≠ s.prevSelected →
        DrawOp.clear ∉ drawOps s vr
        ∧ (∀ idx : Int, DrawOp.cellImage idx ∈ drawOps s vr →
            idx = s.prevSelected ∨ idx = s.selected)
        ∧ (cellVisible s vr s.prevSelected →
            DrawOp.cellImage s.prevSelected ∈ drawOps s vr)
        ∧ (cellVisible s vr s.selected → DrawOp.cellImage s.selected ∈ drawOps s vr)
        ∧ (∀ idx : Int, DrawOp.cellBorder idx ∈ drawOps s vr → idx = s.selected)) := by
  refine ⟨by simp [needFull, or_assoc], ?_, ?_, ?_⟩
  · intro hnf
    have hops : drawOps s vr
        = DrawOp.clear :: (List.range s.count).flatMap
            fun i => writeCellOps s vr (i : Int) := by
      simp [drawOps, hh, hnf]
    refine ⟨⟨_, hops⟩, ?_⟩
    intro idx
    rw [hops]
    simp only [List.mem_cons, List.mem_flatMap]
    constructor
    · rintro (h | ⟨i, hi, hw⟩)
      · exact absurd h (by simp)
      · rw [cellImage_mem_writeCellOps] at hw
        obtain ⟨hv, rfl⟩ := hw
        exact hv
    · intro hv
      obtain ⟨h0, h1, h2, h3⟩ := hv
      refine Or.inr ⟨idx.toNat, ?_, ?_⟩
      · rw [List.mem_range]
        omega
      · have hofnat : (idx.toNat : Int) = idx := by omega
        rw [hofnat, cellImage_mem_writeCellOps]
        exact ⟨⟨h0, h1, h2, h3⟩, rfl⟩
  · intro hnf heq
    have hops : drawOps s vr = [] := by
      simp [drawOps, hh, hnf, heq]
    simp [drawOutput, hops]
  · intro hnf hne
    have hops : drawOps s vr
        = writeCellOps s vr s.prevSelected ++ writeCellOps s vr s.selected := by
      simp [drawOps, hh, hnf, hne]
    refine ⟨?_, ?_, ?_, ?_, ?_⟩
    · rw [hops]
      simp only [List.mem_append]
      rintro (h | h) <;> exact clear_not_mem_writeCellOps _ _ _ h
    · intro idx h
      rw [hops] at h
      rcases List.mem_append.mp h with h | h <;>
        rw [cellImage_mem_writeCellOps] at h
      · exact Or.inl h.2
      · exact Or.inr h.2
    · intro hv
      rw [hops]
      exact List.mem_append.mpr
        (Or.inl ((cellImage_mem_writeCellOps s vr _ _).mpr ⟨hv, rfl⟩))
    · intro hv
      rw [hops]
      exact List.mem_append.mpr
        (Or.inr ((cellImage_mem_writeCellOps s vr _ _).mpr ⟨hv, rfl⟩))
    · intro idx h
      rw [hops] at h
      rcases List.mem_append.mp h with h | h <;>
        rw [cellBorder_mem_writeCellOps] at h
      · exact h.2.1.trans h.2.2
      · exact h.2.1.trans h.2.2

/-- Closed instance of `draw_classification`: with an unchanged snapshot no
output is emitted, and after a pure selection move only the two affected
cells are painted. -/
theorem draw_classification_witness :
    drawOutput ⟨4, 2, 1, 0, 1, 0, 4, false⟩ 2 = []
    ∧ DrawOp.clear ∉ drawOps ⟨4, 2, 1, 0, 0, 0, 4, false⟩ 2 :=
  ⟨(draw_classification ⟨4, 2, 1, 0, 1, 0, 4, false⟩ 2 rfl).2.2.1 (by decide) rfl,
    ((draw_classification ⟨4, 2, 1, 0, 0, 0, 4, false⟩ 2 rfl).2.2.2 (by decide)
      (by decide)).1⟩

end Vista
